import Mathlib

/-!
# Verification of the IP-checker resilient lookup-caching subsystem

Shallow embedding of the core of the `Ip_checeker` repository:

* `src/ip_checker/services/geo.py` — the `CircuitBreaker` class
  (`can_execute` / `record_success` / `record_failure`) and the
  `GeoService.get_location` orchestration;
* `src/circuit_breaker.py` — the standalone `CircuitBreaker.call` wrapper;
* `src/ip_checker/services/cache.py` — `MemoryCache` (LRU + TTL),
  `DiskCache` (size-bounded, index + blobs) and `HybridCache`
  (two-tier with promotion).

Wall-clock instants and TTLs (Python floats from `time.time()`) are modelled
as integers `ℤ` (only order comparisons and integral constants occur); byte sizes as `ℕ`.  I/O effects that feed back into control
flow (provider invocations, disk reads, cache promotion, cache writes) are
recorded in explicit ghost fields of the results so that theorems can speak
about them.
-/

namespace IpChecker

/-- The three circuit-breaker states shared by both implementations
(`STATE_CLOSED` / `STATE_OPEN` / `STATE_HALF_OPEN` strings in
`services/geo.py`, the `CircuitState` enum in `circuit_breaker.py`). -/
inductive CBState where
  | closed
  | opened
  | halfOpen
deriving DecidableEq, Repr

/-- The breaker of `src/ip_checker/services/geo.py` (`class CircuitBreaker`).
Fields mirror `__init__`: configuration (`failure_threshold`,
`recovery_timeout`, `half_open_max_calls`) and the mutable state
(`_state`, `_failure_count`, `_success_count`, `_last_failure_time`,
`_half_open_calls`). -/
structure CB1 where
  failureThreshold : ℕ
  recoveryTimeout : ℤ
  halfOpenMaxCalls : ℕ
  state : CBState
  failureCount : ℕ
  successCount : ℕ
  lastFailureTime : Option ℤ
  halfOpenCalls : ℕ
deriving DecidableEq, Repr

/-- The freshly constructed geo-service breaker: state `closed`, all
counters zero, no failure recorded yet. -/
def CB1.init (ft : ℕ) (rt : ℤ) (hm : ℕ) : CB1 :=
  { failureThreshold := ft, recoveryTimeout := rt, halfOpenMaxCalls := hm
    state := .closed, failureCount := 0, successCount := 0
    lastFailureTime := none, halfOpenCalls := 0 }

/-- `CircuitBreaker.can_execute` of `services/geo.py`.  Returns the updated
breaker and whether the request may proceed.  In the open state the code
compares `time.time() - (self._last_failure_time or 0)` strictly against
`recovery_timeout`; `or 0` maps a missing failure time to `0`. -/
def CB1.canExecute (now : ℤ) (cb : CB1) : CB1 × Bool :=
  match cb.state with
  | .closed => (cb, true)
  | .opened =>
      if now - (cb.lastFailureTime.getD 0) > cb.recoveryTimeout then
        ({ cb with state := .halfOpen, halfOpenCalls := 0 }, true)
      else (cb, false)
  | .halfOpen =>
      if cb.halfOpenCalls < cb.halfOpenMaxCalls then
        ({ cb with halfOpenCalls := cb.halfOpenCalls + 1 }, true)
      else (cb, false)

/-- `CircuitBreaker.record_success` of `services/geo.py`: in the half-open
state increment `_success_count` and close once it reaches
`half_open_max_calls` (resetting both counters); otherwise just reset
`_failure_count`. -/
def CB1.recordSuccess (cb : CB1) : CB1 :=
  if cb.state = .halfOpen then
    let sc := cb.successCount + 1
    if cb.halfOpenMaxCalls ≤ sc then
      { cb with state := .closed, failureCount := 0, successCount := 0 }
    else { cb with successCount := sc }
  else { cb with failureCount := 0 }

/-- `CircuitBreaker.record_failure` of `services/geo.py`: increment
`_failure_count`, stamp `_last_failure_time`, then reopen from half-open,
or open from any state once the count reaches `failure_threshold`. -/
def CB1.recordFailure (now : ℤ) (cb : CB1) : CB1 :=
  let cb' := { cb with failureCount := cb.failureCount + 1
                       lastFailureTime := some now }
  if cb.state = .halfOpen then { cb' with state := .opened }
  else if cb.failureThreshold ≤ cb'.failureCount then
    { cb' with state := .opened }
  else cb'

/-- One invocation of the geo-service breaker's public interface. -/
inductive CB1Op where
  | canExec (now : ℤ)
  | recSuccess
  | recFailure (now : ℤ)
deriving DecidableEq, Repr

/-- Apply one invocation, keeping only the state change
(`can_execute`'s boolean result is dropped here). -/
def CB1.step (op : CB1Op) (cb : CB1) : CB1 :=
  match op with
  | .canExec now => (cb.canExecute now).1
  | .recSuccess => cb.recordSuccess
  | .recFailure now => cb.recordFailure now

/-- All `(before, op, after)` transition triples of a run. -/
def CB1.transitions (cb : CB1) : List CB1Op → List (CB1 × CB1Op × CB1)
  | [] => []
  | op :: ops => (cb, op, cb.step op) :: (cb.step op).transitions ops

/-- A transition of the geo-service breaker is legal when it is a self-loop
or one of the edges the spec allows, fired by the matching operation under
its trigger condition: `Closed→Open` on a failure reaching the threshold,
`Open→HalfOpen` on a call after the recovery timeout has elapsed,
`HalfOpen→Closed` on a probe success, `HalfOpen→Open` on a probe failure. -/
def CB1.legalT : CB1 × CB1Op × CB1 → Prop
  | (s, op, s') =>
    s'.state = s.state ∨
    match op with
    | .recFailure _ =>
        (s.state = .closed ∧ s'.state = .opened ∧
          s'.failureCount = s.failureCount + 1 ∧
          s.failureThreshold ≤ s'.failureCount) ∨
        (s.state = .halfOpen ∧ s'.state = .opened)
    | .canExec now =>
        s.state = .opened ∧ s'.state = .halfOpen ∧
          now - (s.lastFailureTime.getD 0) > s.recoveryTimeout
    | .recSuccess => s.state = .halfOpen ∧ s'.state = .closed

instance (t : CB1 × CB1Op × CB1) : Decidable (CB1.legalT t) := by
  rcases t with ⟨s, op, s'⟩
  cases op <;> · unfold CB1.legalT; infer_instance

/-- Every single step of the geo-service breaker is a legal transition. -/
theorem CB1.step_legal (cb : CB1) (op : CB1Op) : CB1.legalT (cb, op, cb.step op) := by
  cases op with
  | canExec now =>
      unfold legalT step canExecute
      cases h : cb.state <;> simp [h] <;> split <;> simp_all
  | recSuccess =>
      unfold legalT step recordSuccess
      by_cases h : cb.state = .halfOpen <;> simp [h]
      split <;> simp [h]
  | recFailure now =>
      unfold legalT step recordFailure
      cases h : cb.state <;> simp [h]
      all_goals (try split) <;> simp_all

/-- Every transition in every run of the geo-service breaker is legal. -/
theorem CB1.transitions_legal (cb : CB1) (ops : List CB1Op) :
    ∀ t ∈ cb.transitions ops, CB1.legalT t := by
  induction ops generalizing cb with
  | nil => intro t ht; simp [transitions] at ht
  | cons op ops ih =>
      intro t ht
      simp only [transitions, List.mem_cons] at ht
      rcases ht with rfl | ht
      · exact cb.step_legal op
      · exact ih _ t ht

/-- The breaker of `src/circuit_breaker.py` (`class CircuitBreaker`).
Fields mirror `__init__`: `failure_threshold`, `timeout`, the mutable
`state` / `failure_count` / `last_failure_time`, and the statistics
counters.  `expected_exception` is `(Exception,)` (every provider failure
is caught) and `fallback_function` is `None`, as in the shipped factory
configurations. -/
structure CB2 where
  failureThreshold : ℕ
  timeout : ℤ
  state : CBState
  failureCount : ℕ
  lastFailureTime : Option ℤ
  totalCalls : ℕ
  failedCalls : ℕ
  successfulCalls : ℕ
  openEvents : ℕ
deriving DecidableEq, Repr

/-- A freshly constructed standalone breaker. -/
def CB2.init (ft : ℕ) (tm : ℤ) : CB2 :=
  { failureThreshold := ft, timeout := tm, state := .closed
    failureCount := 0, lastFailureTime := none
    totalCalls := 0, failedCalls := 0, successfulCalls := 0, openEvents := 0 }

/-- `CircuitBreaker._set_state`: change the state, bump `open_events` when
opening, and report the `(old, new)` transition (the code prints each such
transition, so transitions are observable events). -/
def CB2.setState (ns : CBState) (cb : CB2) : CB2 × (CBState × CBState) :=
  let cb' := { cb with state := ns
                       openEvents := if ns = .opened then cb.openEvents + 1
                                     else cb.openEvents }
  (cb', (cb.state, ns))

/-- `CircuitBreaker._should_attempt_reset`: `False` with no recorded failure,
otherwise `time.time() - last_failure_time >= timeout`. -/
def CB2.shouldAttemptReset (now : ℤ) (cb : CB2) : Bool :=
  match cb.lastFailureTime with
  | none => false
  | some t => cb.timeout ≤ now - t

/-- `CircuitBreaker._on_success`: close from half-open, count the success,
reset `failure_count`.  Also returns the transition events emitted. -/
def CB2.onSuccess (cb : CB2) : CB2 × List (CBState × CBState) :=
  if cb.state = .halfOpen then
    let (cb', ev) := cb.setState .closed
    ({ cb' with successfulCalls := cb'.successfulCalls + 1, failureCount := 0 }, [ev])
  else ({ cb with successfulCalls := cb.successfulCalls + 1, failureCount := 0 }, [])

/-- `CircuitBreaker._on_failure`: count the failure, stamp
`last_failure_time`, reopen from half-open or open on reaching the
threshold.  Also returns the transition events emitted. -/
def CB2.onFailure (now : ℤ) (cb : CB2) : CB2 × List (CBState × CBState) :=
  let cb' := { cb with failedCalls := cb.failedCalls + 1
                       failureCount := cb.failureCount + 1
                       lastFailureTime := some now }
  if cb'.state = .halfOpen then
    let (cb'', ev) := cb'.setState .opened
    (cb'', [ev])
  else if cb'.failureThreshold ≤ cb'.failureCount then
    let (cb'', ev) := cb'.setState .opened
    (cb'', [ev])
  else (cb', [])

/-- The observable outcome of one `CircuitBreaker.call`: the new breaker,
how many times the wrapped provider function ran, whether the call was
rejected by `_handle_open_state` (raising `CircuitBreakerOpenException`),
and the state-transition events emitted along the way. -/
structure CB2Res where
  cb : CB2
  invoked : ℕ
  raisedOpen : Bool
  events : List (CBState × CBState)
deriving DecidableEq, Repr

/-- `CircuitBreaker.call` of `src/circuit_breaker.py` with no fallback
function: count the call; when open either move to half-open (if the reset
timeout has elapsed) or reject without invoking the function; otherwise
invoke the function exactly once and record its outcome (`funcOk` tells
whether it returned normally or raised an expected exception). -/
def CB2.call (now : ℤ) (funcOk : Bool) (cb : CB2) : CB2Res :=
  let cb := { cb with totalCalls := cb.totalCalls + 1 }
  if cb.state = .opened then
    if cb.shouldAttemptReset now then
      let (cb1, ev1) := cb.setState .halfOpen
      if funcOk then
        let (cb2, evs) := cb1.onSuccess
        ⟨cb2, 1, false, ev1 :: evs⟩
      else
        let (cb2, evs) := cb1.onFailure now
        ⟨cb2, 1, false, ev1 :: evs⟩
    else
      ⟨{ cb with failedCalls := cb.failedCalls + 1 }, 0, true, []⟩
  else
    if funcOk then
      let (cb2, evs) := cb.onSuccess
      ⟨cb2, 1, false, evs⟩
    else
      let (cb2, evs) := cb.onFailure now
      ⟨cb2, 1, false, evs⟩

/-- All transition events emitted by a sequence of `call` invocations,
each given as `(now, funcOk)`. -/
def CB2.runEvents (cb : CB2) : List (ℤ × Bool) → List (CBState × CBState)
  | [] => []
  | (now, ok) :: rest =>
      (cb.call now ok).events ++ (cb.call now ok).cb.runEvents rest

/-- A state-transition edge allowed by the spec: a self-loop, or one of
`Closed→Open`, `Open→HalfOpen`, `HalfOpen→Closed`, `HalfOpen→Open`. -/
def legalEdge (a b : CBState) : Prop :=
  a = b ∨
  (a = .closed ∧ b = .opened) ∨
  (a = .opened ∧ b = .halfOpen) ∨
  (a = .halfOpen ∧ (b = .closed ∨ b = .opened))

instance (a b : CBState) : Decidable (legalEdge a b) := by
  unfold legalEdge; infer_instance

/-- Transition events emitted by `_on_success` are legal edges. -/
theorem CB2.onSuccess_events_legal (cb : CB2) :
    ∀ ev ∈ cb.onSuccess.2, legalEdge ev.1 ev.2 := by
  intro ev hev
  unfold onSuccess setState at hev
  by_cases h : cb.state = .halfOpen <;> simp [h] at hev
  simp [legalEdge, hev, h]

/-- Transition events emitted by `_on_failure` are legal edges. -/
theorem CB2.onFailure_events_legal (now : ℤ) (cb : CB2) :
    ∀ ev ∈ (cb.onFailure now).2, legalEdge ev.1 ev.2 := by
  intro ev hev
  unfold onFailure setState at hev
  by_cases h : cb.state = .halfOpen
  · simp [h] at hev
    simp [legalEdge, hev, h]
  · simp only [h, if_false, ite_false] at hev
    split at hev <;> simp at hev
    cases hs : cb.state <;> simp_all [legalEdge]

/-- Every transition event a single `call` emits is a legal edge. -/
theorem CB2.call_events_legal (cb : CB2) (now : ℤ) (funcOk : Bool) :
    ∀ ev ∈ (cb.call now funcOk).events, legalEdge ev.1 ev.2 := by
  intro ev hev
  unfold call at hev
  by_cases hs : cb.state = .opened <;> simp only [hs, if_true, if_false, ite_true, ite_false] at hev
  · split at hev
    · rcases funcOk <;> simp only [Bool.false_eq_true, if_true, if_false, ite_true, ite_false] at hev <;>
        rcases List.mem_cons.mp hev with rfl | hev'
      · simp [legalEdge, setState]
      · exact onFailure_events_legal now _ ev hev'
      · simp [legalEdge, setState]
      · exact onSuccess_events_legal _ ev hev'
    · simp at hev
  · rcases funcOk <;> simp only [Bool.false_eq_true, if_true, if_false, ite_true, ite_false] at hev
    · exact onFailure_events_legal now _ ev hev
    · exact onSuccess_events_legal _ ev hev

/-- Every transition event in every run of the standalone breaker is a
legal edge. -/
theorem CB2.runEvents_legal (cb : CB2) (calls : List (ℤ × Bool)) :
    ∀ ev ∈ cb.runEvents calls, legalEdge ev.1 ev.2 := by
  induction calls generalizing cb with
  | nil => intro ev hev; simp [runEvents] at hev
  | cons c rest ih =>
      intro ev hev
      simp only [runEvents, List.mem_append] at hev
      rcases hev with hev | hev
      · exact cb.call_events_legal c.1 c.2 ev hev
      · exact ih _ ev hev

/-- Run a sequence of geo-service breaker invocations, returning the final
breaker state. -/
def CB1.run (cb : CB1) (ops : List CB1Op) : CB1 :=
  ops.foldl (fun c op => c.step op) cb

/-- C1: starting from the initial Closed state, every transition of either
circuit breaker follows a legal edge: `Closed→Open` on a failure reaching
`failureThreshold`, `Open→HalfOpen` on a call after `recoveryTimeout` has
elapsed since `lastFailureTime`, `HalfOpen→Closed/Open` on probe outcome;
self-loops aside, no other transition ever occurs, for every sequence of
`record_success` / `record_failure` / `can_execute` invocations on the
geo-service breaker and every sequence of `call` invocations on the
standalone breaker. -/
theorem C1_breaker_transitions_legal :
    (∀ (ft : ℕ) (rt : ℤ) (hm : ℕ) (ops : List CB1Op),
        ∀ t ∈ (CB1.init ft rt hm).transitions ops, CB1.legalT t) ∧
    (∀ (ft : ℕ) (tm : ℤ) (calls : List (ℤ × Bool)),
        ∀ ev ∈ (CB2.init ft tm).runEvents calls, legalEdge ev.1 ev.2) :=
  ⟨fun _ _ _ ops => CB1.transitions_legal _ ops,
   fun _ _ calls => CB2.runEvents_legal _ calls⟩

/-- A concrete instance of C1's guarantee: a run of the geo-service breaker
that opens it, recovers to half-open and closes it again only takes legal
edges. -/
theorem C1_witness :
    ∀ t ∈ (CB1.init 2 10 1).transitions
        [.recFailure 0, .recFailure 1, .canExec 12, .canExec 12, .recSuccess],
      CB1.legalT t := by
  have h := C1_breaker_transitions_legal.1 2 10 1
    [.recFailure 0, .recFailure 1, .canExec 12, .canExec 12, .recSuccess]
  exact h

/-- The concrete open geo-service breaker used to refute C3's boundary:
`recovery_timeout = 60`, last failure at time `0`. -/
def c3Breaker : CB1 :=
  { failureThreshold := 5, recoveryTimeout := 60, halfOpenMaxCalls := 3
    state := .opened, failureCount := 5, successCount := 0
    lastFailureTime := some 0, halfOpenCalls := 0 }

/-- C3 counterexample: at `now = 60` exactly `recoveryTimeout` has elapsed
since `lastFailureTime = 0` (`now - lastFailureTime ≥ recoveryTimeout`),
yet the geo-service breaker's `can_execute` does NOT transition to
HalfOpen — the code compares strictly (`... > self.recovery_timeout`), so
the call is still rejected and the breaker stays Open. -/
theorem C3_counterexample :
    (60 : ℤ) - 0 ≥ c3Breaker.recoveryTimeout ∧
    (c3Breaker.canExecute 60).1.state = .opened ∧
    (c3Breaker.canExecute 60).2 = false := by
  decide

/-- C3 (amended): while Open with `now - lastFailureTime` below the
recovery timeout, both breakers reject every guarded call without invoking
the provider; past the timeout the breaker transitions to HalfOpen and the
next guarded call invokes the provider exactly once.  The geo-service
breaker (`services/geo.py`) requires the elapsed time to exceed the
timeout strictly, while the standalone breaker (`circuit_breaker.py`)
already transitions at exact equality. -/
theorem C3_open_rejects_then_halfopen_probe :
    (∀ (cb : CB1) (now t : ℤ), cb.state = .opened → cb.lastFailureTime = some t →
        now - t ≤ cb.recoveryTimeout → cb.canExecute now = (cb, false)) ∧
    (∀ (cb : CB1) (now t : ℤ), cb.state = .opened → cb.lastFailureTime = some t →
        cb.recoveryTimeout < now - t →
        cb.canExecute now = ({ cb with state := .halfOpen, halfOpenCalls := 0 }, true)) ∧
    (∀ (cb : CB2) (now t : ℤ) (funcOk : Bool), cb.state = .opened →
        cb.lastFailureTime = some t → now - t < cb.timeout →
        (cb.call now funcOk).invoked = 0 ∧ (cb.call now funcOk).raisedOpen = true ∧
        (cb.call now funcOk).cb.state = .opened) ∧
    (∀ (cb : CB2) (now t : ℤ) (funcOk : Bool), cb.state = .opened →
        cb.lastFailureTime = some t → cb.timeout ≤ now - t →
        (cb.call now funcOk).invoked = 1 ∧
        (cb.call now funcOk).events =
          [(CBState.opened, CBState.halfOpen),
           (CBState.halfOpen, if funcOk then CBState.closed else CBState.opened)]) := by
  refine ⟨?_, ?_, ?_, ?_⟩
  · intro cb now t hs hl hle
    unfold CB1.canExecute
    rw [hs, hl]
    simp [not_lt.mpr hle]
  · intro cb now t hs hl hlt
    unfold CB1.canExecute
    rw [hs, hl]
    simp [hlt]
  · intro cb now t ok hs hl hlt
    unfold CB2.call CB2.shouldAttemptReset
    simp [hs, hl, not_le.mpr hlt]
  · intro cb now t ok hs hl hle
    unfold CB2.call CB2.shouldAttemptReset CB2.onSuccess CB2.onFailure CB2.setState
    rcases ok <;> simp [hs, hl, hle]

/-- A concrete instance of the amended C3, matching the spec's scenario
(`recoveryTimeout = 10`, failure at time 0): at `now = 1` the standalone
breaker rejects without invoking the provider; at `now = 11` it invokes it
exactly once, passing through HalfOpen. -/
theorem C3_witness :
    (((CB2.init 2 10 |>.call 0 false).cb.call 0 false).cb.call 1 true).invoked = 0 ∧
    (((CB2.init 2 10 |>.call 0 false).cb.call 0 false).cb.call 1 true).raisedOpen = true ∧
    (((CB2.init 2 10 |>.call 0 false).cb.call 0 false).cb.call 11 true).invoked = 1 := by
  have h3 := C3_open_rejects_then_halfopen_probe.2.2.1
    (((CB2.init 2 10).call 0 false).cb.call 0 false).cb 1 0 true
    (by decide) (by decide) (by decide)
  have h4 := C3_open_rejects_then_halfopen_probe.2.2.2
    (((CB2.init 2 10).call 0 false).cb.call 0 false).cb 11 0 true
    (by decide) (by decide) (by decide)
  exact ⟨h3.1, h3.2.1, h4.1⟩

/-- C4 failing run: with `failure_threshold = 5`, `recovery_timeout = 60`,
`half_open_max_calls = 3`, five failures open the breaker; in a first
half-open episode two probes succeed and the third fails, reopening the
breaker (and stamping `lastFailureTime`); after the timeout a second
half-open episode begins — but `_success_count` still holds the stale
value 2, so a SINGLE probe success closes the breaker, although the claim
(and the spec) require `halfOpenMaxProbes = 3` consecutive successes.
The run also confirms the claim's first half: the probe failure at time 61
immediately reopened the breaker and updated `lastFailureTime`. -/
theorem C4_stale_success_count_closes_early :
    ((CB1.init 5 60 3).run
        [.recFailure 0, .recFailure 0, .recFailure 0, .recFailure 0, .recFailure 0,
         .canExec 61, .canExec 61, .recSuccess, .canExec 61, .recSuccess,
         .canExec 61, .recFailure 61]).state = .opened ∧
    ((CB1.init 5 60 3).run
        [.recFailure 0, .recFailure 0, .recFailure 0, .recFailure 0, .recFailure 0,
         .canExec 61, .canExec 61, .recSuccess, .canExec 61, .recSuccess,
         .canExec 61, .recFailure 61]).lastFailureTime = some 61 ∧
    ((CB1.init 5 60 3).run
        [.recFailure 0, .recFailure 0, .recFailure 0, .recFailure 0, .recFailure 0,
         .canExec 61, .canExec 61, .recSuccess, .canExec 61, .recSuccess,
         .canExec 61, .recFailure 61, .canExec 122, .canExec 122]).state = .halfOpen ∧
    ((CB1.init 5 60 3).run
        [.recFailure 0, .recFailure 0, .recFailure 0, .recFailure 0, .recFailure 0,
         .canExec 61, .canExec 61, .recSuccess, .canExec 61, .recSuccess,
         .canExec 61, .recFailure 61, .canExec 122, .canExec 122]).successCount = 2 ∧
    ((CB1.init 5 60 3).run
        [.recFailure 0, .recFailure 0, .recFailure 0, .recFailure 0, .recFailure 0,
         .canExec 61, .canExec 61, .recSuccess, .canExec 61, .recSuccess,
         .canExec 61, .recFailure 61, .canExec 122, .canExec 122,
         .recSuccess]).state = .closed := by
  decide

/-- `CacheEntry` of `src/ip_checker/services/cache.py`: value plus metadata.
`__post_init__` stamps `created_at` with the current time; `is_expired` is
`time.time() > expires_at`. -/
structure CEntry (α : Type) where
  value : α
  expiresAt : ℤ
  hits : ℕ
  createdAt : ℤ
deriving DecidableEq, Repr

/-- `CacheEntry.is_expired` at instant `now`: `now > expires_at`. -/
def CEntry.isExpired (now : ℤ) (e : CEntry α) : Bool :=
  decide (e.expiresAt < now)

/-- The `MemoryCache._cache` ordered dictionary: an association list whose
front is the least-recently-used position and whose back is the
most-recently-used position. -/
abbrev Mem (α : Type) := List (String × CEntry α)

/-- Lookup by key (first occurrence, as in a dict). -/
def memLookup (k : String) : List (String × β) → Option β
  | [] => none
  | (k', e) :: t => if k' = k then some e else memLookup k t

/-- Remove the (first) entry with the given key, keeping the order of the
others — `del self._cache[key]`. -/
def eraseKey (k : String) : List (String × β) → List (String × β)
  | [] => []
  | (k', e) :: t => if k' = k then t else (k', e) :: eraseKey k t

/-- `MemoryCache.get`: a missing key is a miss; an expired entry is
deleted and reported as a miss; otherwise the entry is moved to the
most-recently-used end, its hit counter bumped, and its value returned. -/
def memGet (now : ℤ) (k : String) (m : Mem α) : Option α × Mem α :=
  match memLookup k m with
  | none => (none, m)
  | some e =>
      if e.isExpired now then (none, eraseKey k m)
      else (some e.value, eraseKey k m ++ [(k, { e with hits := e.hits + 1 })])

/-- The `while len(self._cache) >= self._max_size` eviction loop in
`MemoryCache.set`: repeatedly delete the least-recently-used (front)
entry while the size is at or above capacity. -/
def evictToCap (maxSize : ℕ) : Mem α → Mem α
  | [] => []
  | x :: t => if maxSize ≤ (x :: t).length then evictToCap maxSize t else x :: t

/-- `MemoryCache.set`: build the fresh entry with `expires_at = now + ttl`;
an existing key is replaced in place and moved to the most-recently-used
end (no eviction); a new key first evicts down below capacity, then is
appended at the most-recently-used end. -/
def memSet (now : ℤ) (k : String) (v : α) (ttl : ℤ) (maxSize : ℕ) (m : Mem α) : Mem α :=
  let e : CEntry α := ⟨v, now + ttl, 0, now⟩
  if (memLookup k m).isSome then eraseKey k m ++ [(k, e)]
  else evictToCap maxSize m ++ [(k, e)]

/-- `MemoryCache.cleanup_expired`: drop every expired entry, keeping the
order of the survivors. -/
def memCleanupExpired (now : ℤ) (m : Mem α) : Mem α :=
  m.filter (fun p => ¬ p.2.isExpired now)

/-- Erasing a key yields a sublist. -/
theorem eraseKey_sublist (k : String) (m : List (String × β)) : (eraseKey k m).Sublist m := by
  induction m with
  | nil => simp [eraseKey]
  | cons x t ih =>
      rcases x with ⟨k', e⟩
      unfold eraseKey
      by_cases h : k' = k
      · rw [if_pos h]; exact List.sublist_cons_self _ t
      · rw [if_neg h]; exact ih.cons₂ _

/-- A key that `memLookup` misses heads no entry of the list. -/
theorem memLookup_eq_none_iff (k : String) (m : List (String × β)) :
    memLookup k m = none ↔ ∀ p ∈ m, p.1 ≠ k := by
  induction m with
  | nil => simp [memLookup]
  | cons x t ih =>
      rcases x with ⟨k', e⟩
      unfold memLookup
      by_cases h : k' = k <;> simp [h, ih]

/-- With no duplicate keys, no entry left after erasing `k` has key `k`. -/
theorem not_self_mem_eraseKey (k : String) (m : List (String × β))
    (hnd : (m.map Prod.fst).Nodup) : ∀ p ∈ eraseKey k m, p.1 ≠ k := by
  induction m with
  | nil => simp [eraseKey]
  | cons x t ih =>
      rcases x with ⟨k', e⟩
      simp only [List.map_cons, List.nodup_cons] at hnd
      unfold eraseKey
      by_cases h : k' = k
      · rw [if_pos h]
        intro p hp hpk
        have : p.1 ∈ List.map Prod.fst t := List.mem_map_of_mem Prod.fst hp
        rw [hpk, ← h] at this
        exact hnd.1 this
      · rw [if_neg h]
        intro p hp
        rcases List.mem_cons.mp hp with rfl | hp'
        · exact h
        · exact ih hnd.2 p hp'

/-- With no duplicate keys, the erased key is gone. -/
theorem memLookup_eraseKey_self (k : String) (m : List (String × β))
    (hnd : (m.map Prod.fst).Nodup) : memLookup k (eraseKey k m) = none :=
  (memLookup_eq_none_iff k _).mpr (not_self_mem_eraseKey k m hnd)

/-- A memory-tier state holding one entry that expires exactly at
instant 5, used to refute C5 at the expiry boundary. -/
def c5Mem : Mem ℕ := [("k", ⟨0, 5, 0, 0⟩)]

/-- C5 counterexample: at `now = expiresAt` (here both 5) the claim says
`Get` must miss (`now < expiresAt` fails), but `MemoryCache.get` still
returns the stored value because `is_expired` is the strict comparison
`time.time() > expires_at`. -/
theorem C5_counterexample :
    ¬ (((memGet 5 "k" c5Mem).1 = some 0) ↔ (5 : ℤ) < 5) := by
  decide

/-- C5 (amended): for a memory-tier entry, `Get` returns the stored value
iff `now ≤ expiresAt` (the code misses only on the strict `now >
expiresAt`); once `now > expiresAt`, the first `Get` deletes the entry as
a side effect and reports a miss, and every later `Get` for that key finds
nothing and leaves the state unchanged — so exactly one `Get` performs
the deletion. -/
theorem C5_ttl_hit_iff_and_single_deletion {α : Type}
    (now : ℤ) (k : String) (m : Mem α) (e : CEntry α)
    (hnd : (m.map Prod.fst).Nodup) (hl : memLookup k m = some e) :
    (((memGet now k m).1 = some e.value) ↔ now ≤ e.expiresAt) ∧
    (e.expiresAt < now →
      (memGet now k m).1 = none ∧
      (memGet now k m).2 = eraseKey k m ∧
      ∀ now2 : ℤ, memGet now2 k (eraseKey k m) = (none, eraseKey k m)) := by
  have herased : memLookup k (eraseKey k m) = none := memLookup_eraseKey_self k m hnd
  unfold memGet CEntry.isExpired
  rw [hl, herased]
  by_cases hx : e.expiresAt < now
  · refine ⟨?_, fun _ => ⟨by simp [hx], by simp [hx], fun now2 => rfl⟩⟩
    simp [hx]
  · refine ⟨?_, fun hexp => absurd hexp hx⟩
    simp [hx]
    omega

/-- A concrete instance of the amended C5: an entry expiring at 5, read at
6 — the read misses, deletes the entry, and a second read at any of two
later instants finds nothing and changes nothing. -/
theorem C5_witness :
    (((memGet 6 "k" c5Mem).1 = some 0) ↔ (6 : ℤ) ≤ 5) ∧
    ((5 : ℤ) < 6 →
      (memGet 6 "k" c5Mem).1 = none ∧
      (memGet 6 "k" c5Mem).2 = eraseKey "k" c5Mem ∧
      ∀ now2 : ℤ, memGet now2 "k" (eraseKey "k" c5Mem) = (none, eraseKey "k" c5Mem)) :=
  C5_ttl_hit_iff_and_single_deletion 6 "k" c5Mem ⟨0, 5, 0, 0⟩ (by decide) (by decide)

/-- One public memory-tier operation, as issued by callers. -/
inductive MemOp (α : Type) where
  | get (now : ℤ) (k : String)
  | set (now : ℤ) (k : String) (v : α) (ttl : ℤ)
deriving DecidableEq, Repr

/-- Point-update of a touch-time function. -/
def updF (f : String → ℕ) (k : String) (c : ℕ) : String → ℕ :=
  fun k' => if k' = k then c else f k'

/-- The memory tier together with ghost bookkeeping: `touch k` is the
index of the last operation that touched `k` (a `Get` hit or a `Set`),
`clock` the number of operations processed. -/
structure GState (α : Type) where
  mem : Mem α
  touch : String → ℕ
  clock : ℕ

/-- The empty tier, before any operation. -/
def GState.init : GState α := ⟨[], fun _ => 0, 0⟩

/-- Apply one operation to the tier, updating the ghost touch times: a
`Get` touches its key only when it hits a live entry (an expired entry is
deleted, which is not a touch); a `Set` always touches its key. -/
def gstep (maxSize : ℕ) (st : GState α) : MemOp α → GState α
  | .get now k =>
      match memLookup k st.mem with
      | none => ⟨st.mem, st.touch, st.clock + 1⟩
      | some e =>
          if e.isExpired now then ⟨(memGet now k st.mem).2, st.touch, st.clock + 1⟩
          else ⟨(memGet now k st.mem).2, updF st.touch k st.clock, st.clock + 1⟩
  | .set now k v ttl =>
      ⟨memSet now k v ttl maxSize st.mem, updF st.touch k st.clock, st.clock + 1⟩

/-- Run a sequence of memory-tier operations from the empty tier. -/
def grun (maxSize : ℕ) (ops : List (MemOp α)) : GState α :=
  ops.foldl (gstep maxSize) .init

/-- The recency invariant: entries are ordered front-to-back by strictly
increasing last-touch time, and all touch times are in the past. -/
def GInv (st : GState α) : Prop :=
  st.mem.Pairwise (fun p q => st.touch p.1 < st.touch q.1) ∧
  ∀ p ∈ st.mem, st.touch p.1 < st.clock

/-- Recency-sorted lists have pairwise-distinct keys. -/
theorem keys_nodup_of_touch_sorted (f : String → ℕ) (m : Mem α)
    (h : m.Pairwise (fun p q => f p.1 < f q.1)) : (m.map Prod.fst).Nodup := by
  refine (List.pairwise_map).mpr (h.imp ?_)
  intro a b hlt heq
  rw [heq] at hlt
  exact lt_irrefl _ hlt

/-- `MemoryCache.get` on a missing key: a miss, no state change. -/
theorem memGet_miss {m : Mem α} (now : ℤ) (k : String)
    (hl : memLookup k m = none) : memGet now k m = (none, m) := by
  simp [memGet, hl]

/-- `MemoryCache.get` on an expired entry: a miss that deletes the entry. -/
theorem memGet_expired {m : Mem α} {e : CEntry α} (now : ℤ) (k : String)
    (hl : memLookup k m = some e) (hexp : e.isExpired now) :
    memGet now k m = (none, eraseKey k m) := by
  simp [memGet, hl, hexp]

/-- `MemoryCache.get` on a live entry: a hit that moves the entry to the
most-recently-used end and bumps its hit counter. -/
theorem memGet_live {m : Mem α} {e : CEntry α} (now : ℤ) (k : String)
    (hl : memLookup k m = some e) (hexp : ¬ e.isExpired now) :
    memGet now k m = (some e.value, eraseKey k m ++ [(k, { e with hits := e.hits + 1 })]) := by
  simp only [memGet, hl]
  rw [if_neg hexp]

/-- `MemoryCache.set` on an existing key: replace in place and move to the
most-recently-used end — no eviction. -/
theorem memSet_replace {m : Mem α} (now : ℤ) (k : String) (v : α) (ttl : ℤ)
    (maxSize : ℕ) (h : (memLookup k m).isSome) :
    memSet now k v ttl maxSize m = eraseKey k m ++ [(k, ⟨v, now + ttl, 0, now⟩)] := by
  simp [memSet, h]

/-- `MemoryCache.set` on a fresh key: evict down below capacity, then
append at the most-recently-used end. -/
theorem memSet_fresh {m : Mem α} (now : ℤ) (k : String) (v : α) (ttl : ℤ)
    (maxSize : ℕ) (h : memLookup k m = none) :
    memSet now k v ttl maxSize m = evictToCap maxSize m ++ [(k, ⟨v, now + ttl, 0, now⟩)] := by
  simp [memSet, h]

/-- Eviction keeps a suffix-like sublist of the tier. -/
theorem evictToCap_sublist (n : ℕ) (m : Mem α) : (evictToCap n m).Sublist m := by
  induction m with
  | nil => simp [evictToCap]
  | cons x t ih =>
      unfold evictToCap
      by_cases h : n ≤ (x :: t).length
      · rw [if_pos h]; exact ih.trans (List.sublist_cons_self x t)
      · rw [if_neg h]

/-- Below capacity, the eviction loop does nothing. -/
theorem evictToCap_of_lt (n : ℕ) (m : Mem α) (h : m.length < n) :
    evictToCap n m = m := by
  cases m with
  | nil => rfl
  | cons x t => unfold evictToCap; rw [if_neg (Nat.not_le_of_lt h)]

/-- At exact capacity, the eviction loop removes exactly the front
(least-recently-used) entry. -/
theorem evictToCap_of_eq (n : ℕ) (m : Mem α) (_hpos : 0 < n) (h : m.length = n) :
    evictToCap n m = m.tail := by
  cases m with
  | nil => rfl
  | cons x t =>
      unfold evictToCap
      rw [if_pos (le_of_eq h.symm)]
      exact evictToCap_of_lt n t (by simp at h; omega)

/-- Touching key `k` and appending it at the most-recently-used end keeps
the recency ordering, for any key-distinct prefix drawn from the tier. -/
theorem ginv_append (st : GState α) (pre : Mem α) (k : String) (e : CEntry α)
    (hsub : pre.Sublist st.mem) (hne : ∀ p ∈ pre, p.1 ≠ k)
    (hpw : st.mem.Pairwise (fun p q => st.touch p.1 < st.touch q.1))
    (hbound : ∀ p ∈ st.mem, st.touch p.1 < st.clock) :
    (pre ++ [(k, e)]).Pairwise
      (fun p q => updF st.touch k st.clock p.1 < updF st.touch k st.clock q.1) ∧
    ∀ p ∈ pre ++ [(k, e)], updF st.touch k st.clock p.1 < st.clock + 1 := by
  constructor
  · rw [List.pairwise_append]
    refine ⟨?_, List.pairwise_singleton _ _, ?_⟩
    · refine (hpw.sublist hsub).imp_of_mem ?_
      intro p q hp hq hlt
      simpa [updF, hne p hp, hne q hq] using hlt
    · intro p hp q hq
      simp only [List.mem_singleton] at hq
      subst hq
      simp only [updF, if_neg (hne p hp), if_pos rfl]
      exact hbound p (hsub.mem hp)
  · intro p hp
    rcases List.mem_append.mp hp with hp' | hp'
    · simp only [updF, if_neg (hne p hp')]
      exact Nat.lt_succ_of_lt (hbound p (hsub.mem hp'))
    · simp only [List.mem_singleton] at hp'
      subst hp'
      simp [updF]

/-- The ghost step preserves the recency invariant. -/
theorem GInv.step (maxSize : ℕ) (st : GState α) (op : MemOp α) (hinv : GInv st) :
    GInv (gstep maxSize st op) := by
  obtain ⟨hpw, hbound⟩ := hinv
  have hnd : (st.mem.map Prod.fst).Nodup := keys_nodup_of_touch_sorted st.touch st.mem hpw
  cases op with
  | get now k =>
      simp only [gstep]
      cases hl : memLookup k st.mem with
      | none =>
          exact ⟨hpw, fun p hp => Nat.lt_succ_of_lt (hbound p hp)⟩
      | some e =>
          show GInv (if e.isExpired now
            then ⟨(memGet now k st.mem).2, st.touch, st.clock + 1⟩
            else ⟨(memGet now k st.mem).2, updF st.touch k st.clock, st.clock + 1⟩)
          by_cases hexp : e.isExpired now
          · rw [if_pos hexp, memGet_expired now k hl hexp]
            exact ⟨hpw.sublist (eraseKey_sublist k st.mem),
              fun p hp => Nat.lt_succ_of_lt (hbound p ((eraseKey_sublist k st.mem).mem hp))⟩
          · rw [if_neg hexp, memGet_live now k hl hexp]
            exact ginv_append st (eraseKey k st.mem) k _ (eraseKey_sublist k st.mem)
              (not_self_mem_eraseKey k st.mem hnd) hpw hbound
  | set now k v ttl =>
      simp only [gstep]
      by_cases hl : (memLookup k st.mem).isSome
      · rw [memSet_replace now k v ttl maxSize hl]
        exact ginv_append st (eraseKey k st.mem) k _ (eraseKey_sublist k st.mem)
          (not_self_mem_eraseKey k st.mem hnd) hpw hbound
      · have hl' := Option.not_isSome_iff_eq_none.mp hl
        rw [memSet_fresh now k v ttl maxSize hl']
        exact ginv_append st (evictToCap maxSize st.mem) k _
          (evictToCap_sublist maxSize st.mem)
          (fun p hp => (memLookup_eq_none_iff k st.mem).mp hl' p
            ((evictToCap_sublist maxSize st.mem).mem hp)) hpw hbound

/-- The recency invariant holds after any run from the empty tier. -/
theorem GInv.run (maxSize : ℕ) (ops : List (MemOp α)) : GInv (grun maxSize ops) := by
  have hbase : GInv (GState.init : GState α) := by
    constructor <;> simp [GState.init]
  suffices h : ∀ (st : GState α), GInv st → GInv (ops.foldl (gstep maxSize) st) by
    exact h _ hbase
  induction ops with
  | nil => intro st h; exact h
  | cons op ops ih =>
      intro st h
      exact ih _ (h.step maxSize st op)

/-- Erasing a present key shortens the list by exactly one. -/
theorem eraseKey_length {k : String} {m : List (String × β)} (h : (memLookup k m).isSome) :
    (eraseKey k m).length + 1 = m.length := by
  induction m with
  | nil => simp [memLookup] at h
  | cons x t ih =>
      rcases x with ⟨k', e⟩
      unfold memLookup at h
      unfold eraseKey
      by_cases hk : k' = k
      · rw [if_pos hk]; simp
      · rw [if_neg hk] at h
        rw [if_neg hk]
        have := ih h
        simp only [List.length_cons]
        omega

/-- The LRU behaviour of `MemoryCache.set` on any recency-invariant tier
state: replacing an existing key evicts nothing and keeps the size, while
inserting a new key at exact capacity evicts precisely the front entry —
whose key is the least recently touched one. -/
theorem memSet_lru_spec (st : GState α) (hinv : GInv st)
    (now : ℤ) (k : String) (v : α) (ttl : ℤ) (maxSize : ℕ) :
    ((memLookup k st.mem).isSome →
      memSet now k v ttl maxSize st.mem
        = eraseKey k st.mem ++ [(k, ⟨v, now + ttl, 0, now⟩)] ∧
      (memSet now k v ttl maxSize st.mem).length = st.mem.length) ∧
    (memLookup k st.mem = none → st.mem.length = maxSize → 0 < maxSize →
      memSet now k v ttl maxSize st.mem
        = st.mem.tail ++ [(k, ⟨v, now + ttl, 0, now⟩)] ∧
      ∀ hd, st.mem.head? = some hd →
        ∀ p ∈ st.mem.tail, st.touch hd.1 < st.touch p.1) := by
  obtain ⟨hpw, hbound⟩ := hinv
  constructor
  · intro hl
    refine ⟨memSet_replace now k v ttl maxSize hl, ?_⟩
    rw [memSet_replace now k v ttl maxSize hl]
    have := eraseKey_length hl
    simp only [List.length_append, List.length_cons, List.length_nil]
    omega
  · intro hl hcap hpos
    refine ⟨?_, ?_⟩
    · rw [memSet_fresh now k v ttl maxSize hl,
          evictToCap_of_eq maxSize st.mem hpos hcap]
    · intro hd hhd p hp
      have hcons : st.mem = hd :: st.mem.tail := by
        cases hm : st.mem with
        | nil => rw [hm] at hhd; simp at hhd
        | cons a t =>
            rw [hm] at hhd
            simp only [List.head?_cons, Option.some.injEq] at hhd
            rw [← hhd]
            rfl
      have hpw' := hcons ▸ hpw
      rw [List.pairwise_cons] at hpw'
      exact hpw'.1 p hp

/-- C6: on every memory-tier state reachable by a sequence of `Get`/`Set`
operations from the empty tier, `Set` with an existing key replaces the
entry, refreshes its recency position and evicts nothing (the size is
unchanged); `Set` with a new key while the tier holds exactly `maxEntries`
entries evicts exactly the single front entry before appending — and the
front entry's key is the one least recently touched by a `Get` hit or a
`Set` (its ghost touch time is strictly below every other resident key's).
In particular inserting `maxEntries + 1` distinct keys evicts precisely
the least-recently-accessed key. -/
theorem C6_set_lru_eviction {α : Type} (maxSize : ℕ) (ops : List (MemOp α))
    (now : ℤ) (k : String) (v : α) (ttl : ℤ) :
    ((memLookup k (grun maxSize ops).mem).isSome →
      memSet now k v ttl maxSize (grun maxSize ops).mem
        = eraseKey k (grun maxSize ops).mem ++ [(k, ⟨v, now + ttl, 0, now⟩)] ∧
      (memSet now k v ttl maxSize (grun maxSize ops).mem).length
        = (grun maxSize ops).mem.length) ∧
    (memLookup k (grun maxSize ops).mem = none →
      (grun maxSize ops).mem.length = maxSize → 0 < maxSize →
      memSet now k v ttl maxSize (grun maxSize ops).mem
        = (grun maxSize ops).mem.tail ++ [(k, ⟨v, now + ttl, 0, now⟩)] ∧
      ∀ hd, (grun maxSize ops).mem.head? = some hd →
        ∀ p ∈ (grun maxSize ops).mem.tail,
          (grun maxSize ops).touch hd.1 < (grun maxSize ops).touch p.1) :=
  memSet_lru_spec (grun maxSize ops) (GInv.run maxSize ops) now k v ttl maxSize

/-- A concrete instance of C6: capacity 2, keys "a" then "b" inserted;
inserting the fresh key "c" evicts exactly "a", the least recently
touched key. -/
theorem C6_witness :
    memSet 2 "c" 3 100 2 (grun 2 [MemOp.set 0 "a" 1 100, MemOp.set 1 "b" 2 100]).mem
      = (grun 2 [MemOp.set 0 "a" 1 100, MemOp.set 1 "b" 2 100]).mem.tail
        ++ [("c", ⟨3, 2 + 100, 0, 2⟩)] ∧
    (grun 2 [MemOp.set 0 "a" 1 100, MemOp.set 1 "b" 2 100]).touch "a"
      < (grun 2 [MemOp.set 0 "a" 1 100, MemOp.set 1 "b" 2 100]).touch "b" := by
  have h := (C6_set_lru_eviction 2 [MemOp.set 0 "a" 1 100, MemOp.set 1 "b" 2 100]
    2 "c" 3 100).2 (by decide) (by decide) (by decide)
  refine ⟨h.1, ?_⟩
  exact h.2 ("a", ⟨1, 0 + 100, 0, 0⟩) (by decide) ("b", ⟨2, 1 + 100, 0, 1⟩) (by decide)

/-- One row of the `DiskCache._index`: the dictionary `DiskCache.set`
writes is `{'file': ..., 'expires_at': ..., 'size': ...}` — it never
contains an `'accessed_at'` key, and no operation ever adds one, so
`accessedAt` is `none` on every row the code produces (the blob path is
determined by the key and elided). -/
structure DMeta where
  expiresAt : ℤ
  size : ℕ
  accessedAt : Option ℤ
deriving DecidableEq, Repr

/-- The `DiskCache` state: the on-disk index plus one pickled `CacheEntry`
blob per key (`_get_cache_file` hashes the key; the model keys blobs by
the key itself). -/
structure Disk (α : Type) where
  index : List (String × DMeta)
  blobs : List (String × CEntry α)
deriving DecidableEq, Repr

/-- `DiskCache.delete`: pop the index row and unlink the blob file. -/
def diskDelete (k : String) (d : Disk α) : Disk α :=
  ⟨eraseKey k d.index, eraseKey k d.blobs⟩

/-- `DiskCache.get`: miss on a missing index row; an index row past its
`expires_at` (strictly, `time.time() > meta['expires_at']`) is deleted and
reported as a miss; a missing/unreadable blob is deleted and a miss; an
expired blob likewise; otherwise the blob's value is returned (the
`entry.hits += 1` bump is never written back, so the state is unchanged). -/
def diskGet (now : ℤ) (k : String) (d : Disk α) : Option α × Disk α :=
  match memLookup k d.index with
  | none => (none, d)
  | some meta =>
      if meta.expiresAt < now then (none, diskDelete k d)
      else match memLookup k d.blobs with
        | none => (none, diskDelete k d)
        | some e =>
            if e.isExpired now then (none, diskDelete k d)
            else (some e.value, d)

/-- Total indexed size: `sum(m['size'] for m in self._index.values())`. -/
def sumSizes (idx : List (String × DMeta)) : ℕ :=
  (idx.map (fun p => p.2.size)).sum

/-- The sort key of `_cleanup_if_needed`:
`x[1].get('accessed_at', 0)` — missing access times read as `0`. -/
def accKey (m : DMeta) : ℤ := m.accessedAt.getD 0

/-- One step of a stable ascending insertion sort on the access key: an
element is placed after every element whose key is `≤` its own, matching
Python's stable `sorted`. -/
def insByAccess (x : String × DMeta) :
    List (String × DMeta) → List (String × DMeta)
  | [] => [x]
  | y :: t => if accKey y.2 ≤ accKey x.2 then y :: insByAccess x t else x :: y :: t

/-- `sorted(self._index.items(), key=lambda x: x[1].get('accessed_at', 0))`
— a stable ascending sort of the index rows by access key. -/
def sortByAccess (l : List (String × DMeta)) : List (String × DMeta) :=
  l.foldl (fun acc x => insByAccess x acc) []

/-- The eviction loop of `_cleanup_if_needed`: `while total_size >
target_size and sorted_entries:` pop the front of the sorted list, delete
that key, subtract its size. -/
def evictLoop (target : ℚ) : ℚ → List (String × DMeta) → Disk α → Disk α
  | _, [], d => d
  | total, (k, m) :: rest, d =>
      if total ≤ target then d
      else evictLoop target (total - (m.size : ℚ)) rest (diskDelete k d)

/-- `DiskCache._cleanup_if_needed`: return unless the total indexed size
reaches `max_size_bytes * 0.8`; otherwise evict in sorted-by-access order
down to `max_size_bytes * 0.6`. -/
def cleanupIfNeeded (maxBytes : ℕ) (d : Disk α) : Disk α :=
  let total : ℚ := (sumSizes d.index : ℚ)
  if total < (0.8 : ℚ) * (maxBytes : ℚ) then d
  else evictLoop ((0.6 : ℚ) * (maxBytes : ℚ)) total (sortByAccess d.index) d

/-- Python dict assignment `self._index[key] = ...`: replace in place when
the key exists (keeping its position), else append. -/
def upsert (k : String) (v : β) : List (String × β) → List (String × β)
  | [] => [(k, v)]
  | (k', v') :: t => if k' = k then (k, v) :: t else (k', v') :: upsert k v t

/-- `DiskCache.set`: run the capacity check first, then write the blob
(`CacheEntry(value, expires_at=now+ttl)`) and the index row; `size` is the
pickled blob's byte size (`cache_file.stat().st_size`), supplied here as
an input. -/
def diskSet (now : ℤ) (k : String) (v : α) (ttl : ℤ) (size : ℕ)
    (maxBytes : ℕ) (d : Disk α) : Disk α :=
  let d1 := cleanupIfNeeded maxBytes d
  ⟨upsert k ⟨now + ttl, size, none⟩ d1.index,
   upsert k ⟨v, now + ttl, 0, now⟩ d1.blobs⟩

/-- When every access key reads 0, the stable insertion places an element
at the very end. -/
theorem insByAccess_allnone (x : String × DMeta) (l : List (String × DMeta))
    (hx : x.2.accessedAt = none) (hl : ∀ p ∈ l, p.2.accessedAt = none) :
    insByAccess x l = l ++ [x] := by
  induction l with
  | nil => rfl
  | cons y t ih =>
      unfold insByAccess
      rw [if_pos]
      · rw [ih (fun p hp => hl p (List.mem_cons_of_mem y hp))]
        rfl
      · rw [accKey, accKey, hx, hl y (List.mem_cons_self y t)]

/-- With no recorded access times the stable sort is the identity — it is
the index's insertion order that decides eviction. -/
theorem sortByAccess_allnone (l : List (String × DMeta))
    (hl : ∀ p ∈ l, p.2.accessedAt = none) : sortByAccess l = l := by
  suffices h : ∀ acc, (∀ p ∈ acc, p.2.accessedAt = none) →
      l.foldl (fun acc x => insByAccess x acc) acc = acc ++ l by
    simpa using h [] (by simp)
  induction l with
  | nil => intro acc hacc; simp
  | cons x t ih =>
      intro acc hacc
      have hx : x.2.accessedAt = none := hl x (List.mem_cons_self x t)
      have ht : ∀ p ∈ t, p.2.accessedAt = none :=
        fun p hp => hl p (List.mem_cons_of_mem x hp)
      calc (x :: t).foldl (fun acc x => insByAccess x acc) acc
          = t.foldl (fun acc x => insByAccess x acc) (insByAccess x acc) := rfl
        _ = insByAccess x acc ++ t := by
              refine ?_
              have := ih ht (insByAccess x acc) ?_
              · exact this
              · intro p hp
                rw [insByAccess_allnone x acc hx hacc] at hp
                rcases List.mem_append.mp hp with hp' | hp'
                · exact hacc p hp'
                · simp only [List.mem_singleton] at hp'
                  rw [hp']
                  exact hx
        _ = (acc ++ [x]) ++ t := by rw [insByAccess_allnone x acc hx hacc]
        _ = acc ++ x :: t := by simp

/-- Running the eviction loop with the pending list equal to the index
drops a minimal prefix of the index, leaving a total of at most `target`
(dropping everything still satisfies the bound since `target ≥ 0`). -/
theorem evictLoop_index (target : ℚ) (htarget : 0 ≤ target) :
    ∀ (pending : List (String × DMeta)) (bl : List (String × CEntry α)),
    ∃ j, (evictLoop target (sumSizes pending : ℚ) pending ⟨pending, bl⟩).index
          = pending.drop j ∧
        (sumSizes (pending.drop j) : ℚ) ≤ target ∧
        ∀ i < j, target < (sumSizes (pending.drop i) : ℚ) := by
  intro pending
  induction pending with
  | nil =>
      intro bl
      exact ⟨0, rfl, by simpa [sumSizes] using htarget, by omega⟩
  | cons x rest ih =>
      intro bl
      rcases x with ⟨k, m⟩
      by_cases hstop : (sumSizes ((k, m) :: rest) : ℚ) ≤ target
      · refine ⟨0, ?_, hstop, by omega⟩
        unfold evictLoop
        rw [if_pos hstop]
        rfl
      · have hdel : diskDelete k (⟨(k, m) :: rest, bl⟩ : Disk α)
            = ⟨rest, eraseKey k bl⟩ := by
          unfold diskDelete eraseKey
          simp
        have hsum : (sumSizes ((k, m) :: rest) : ℚ) - (m.size : ℚ)
            = (sumSizes rest : ℚ) := by
          unfold sumSizes
          rw [List.map_cons, List.sum_cons]
          push_cast
          ring
        obtain ⟨j, hj, hle, hmin⟩ := ih (eraseKey k bl)
        refine ⟨j + 1, ?_, hle, ?_⟩
        · show (evictLoop target (sumSizes ((k, m) :: rest) : ℚ)
              ((k, m) :: rest) ⟨(k, m) :: rest, bl⟩).index = rest.drop j
          unfold evictLoop
          rw [if_neg hstop, hdel, hsum]
          exact hj
        · intro i hi
          cases i with
          | zero => simpa using not_le.mp hstop
          | succ i' => exact hmin i' (by omega)

/-- `_cleanup_if_needed` on an index with no recorded access times: no
eviction strictly below the 0.8 threshold; at or above it, a prefix of
the index (insertion order) is dropped until the total is at most the
0.6 target, and the prefix dropped is minimal. -/
theorem cleanupIfNeeded_spec (maxBytes : ℕ) (d : Disk α)
    (hall : ∀ p ∈ d.index, p.2.accessedAt = none) :
    ((sumSizes d.index : ℚ) < 0.8 * maxBytes → cleanupIfNeeded maxBytes d = d) ∧
    ((0.8 : ℚ) * maxBytes ≤ sumSizes d.index →
      ∃ j, (cleanupIfNeeded maxBytes d).index = d.index.drop j ∧
        (sumSizes (d.index.drop j) : ℚ) ≤ 0.6 * maxBytes ∧
        ∀ i < j, (0.6 : ℚ) * maxBytes < sumSizes (d.index.drop i)) := by
  constructor
  · intro hlt
    unfold cleanupIfNeeded
    rw [if_pos hlt]
  · intro hge
    unfold cleanupIfNeeded
    rw [if_neg (not_lt.mpr hge), sortByAccess_allnone d.index hall]
    have htarget : (0 : ℚ) ≤ 0.6 * maxBytes := by positivity
    obtain ⟨j, hj, hle, hmin⟩ := evictLoop_index (0.6 * maxBytes) htarget d.index d.blobs
    exact ⟨j, hj, hle, hmin⟩

/-- C8 (amended): a disk-tier `Set` whose capacity check finds the total
indexed size strictly below `maxBytes * 0.8` evicts nothing; once the
total is at or above `maxBytes * 0.8` (the code triggers at equality too:
`if total_size < max * 0.8: return`), it drops a minimal prefix of the
index — in index-insertion order, because the sort key `accessed_at` is
never recorded by any operation, so the stable sort is the identity —
until the remaining total is at most `maxBytes * 0.6`, and then writes
the new entry. -/
theorem C8_diskset_eviction {α : Type} (now : ℤ) (k : String) (v : α)
    (ttl : ℤ) (size : ℕ) (maxBytes : ℕ) (d : Disk α)
    (hall : ∀ p ∈ d.index, p.2.accessedAt = none) :
    ((sumSizes d.index : ℚ) < 0.8 * maxBytes →
      diskSet now k v ttl size maxBytes d
        = ⟨upsert k ⟨now + ttl, size, none⟩ d.index,
           upsert k ⟨v, now + ttl, 0, now⟩ d.blobs⟩) ∧
    ((0.8 : ℚ) * maxBytes ≤ sumSizes d.index →
      ∃ j, (diskSet now k v ttl size maxBytes d).index
            = upsert k ⟨now + ttl, size, none⟩ (d.index.drop j) ∧
          (sumSizes (d.index.drop j) : ℚ) ≤ 0.6 * maxBytes ∧
          ∀ i < j, (0.6 : ℚ) * maxBytes < sumSizes (d.index.drop i)) := by
  obtain ⟨hno, hyes⟩ := cleanupIfNeeded_spec maxBytes d hall
  constructor
  · intro hlt
    unfold diskSet
    rw [hno hlt]
  · intro hge
    obtain ⟨j, hj, hle, hmin⟩ := hyes hge
    refine ⟨j, ?_, hle, hmin⟩
    show (upsert k ⟨now + ttl, size, none⟩ (cleanupIfNeeded maxBytes d).index
      : List (String × DMeta)) = _
    rw [hj]

/-- The concrete disk tier used for C8: rows A (500 bytes) then B (300
bytes), total 800 = 0.8 × 1000, no access times recorded (the code never
writes any). -/
def c8Disk : Disk ℕ :=
  ⟨[("A", ⟨100, 500, none⟩), ("B", ⟨100, 300, none⟩)],
   [("A", ⟨1, 100, 0, 0⟩), ("B", ⟨2, 100, 0, 0⟩)]⟩

/-- C8 counterexample, two divergences at once.  (i) boundary: with
`maxBytes = 1000` and a total of exactly 800 = `maxBytes * 0.8`, the
claim says no eviction occurs ("at or below the 0.8 threshold"), yet a
`Set` evicts row A.  (ii) access order: row A is read (accessed) just
before the `Set`, so B is the least-recently-accessed row — but the code
still evicts A first (index insertion order; reads never update any
access time), keeping B. -/
theorem C8_counterexample :
    (sumSizes c8Disk.index : ℚ) = 0.8 * 1000 ∧
    (diskGet 50 "A" c8Disk).1 = some 1 ∧
    (diskGet 50 "A" c8Disk).2 = c8Disk ∧
    memLookup "A" (diskSet 50 "C" 7 100 10 1000 (diskGet 50 "A" c8Disk).2).index
      = none ∧
    memLookup "B" (diskSet 50 "C" 7 100 10 1000 (diskGet 50 "A" c8Disk).2).index
      = some ⟨100, 300, none⟩ := by
  have hget : (diskGet 50 "A" c8Disk).2 = c8Disk := by decide
  have hfinal : (diskSet 50 "C" 7 100 10 1000 c8Disk).index
      = [("B", ⟨100, 300, none⟩), ("C", ⟨150, 10, none⟩)] := by
    norm_num [diskSet, c8Disk, cleanupIfNeeded, sumSizes, evictLoop, sortByAccess,
      insByAccess, accKey, diskDelete, eraseKey, upsert]
    try decide
  refine ⟨by norm_num [c8Disk, sumSizes], by decide, hget, ?_, ?_⟩
  · rw [hget, hfinal]; decide
  · rw [hget, hfinal]; decide

/-- A concrete instance of the amended C8: on `c8Disk` (total 800 ≥
0.8 × 1000) a `Set` drops a minimal index prefix down to at most 600
bytes before inserting. -/
theorem C8_witness :
    ∃ j, (diskSet 50 "C" 7 100 10 1000 c8Disk).index
          = upsert "C" ⟨50 + 100, 10, none⟩ (c8Disk.index.drop j) ∧
        (sumSizes (c8Disk.index.drop j) : ℚ) ≤ 0.6 * 1000 ∧
        ∀ i < j, (0.6 : ℚ) * 1000 < sumSizes (c8Disk.index.drop i) := by
  have h := (C8_diskset_eviction 50 "C" 7 100 10 1000 c8Disk (by decide)).2
    (by norm_num [c8Disk, sumSizes])
  simpa using h

/-- The `HybridCache` state: memory tier (L1), disk tier (L2) and the
timestamp of the last periodic cleanup.  Python has a single `None`, so a
stored Python value is modelled as `Option β`: `none` is Python `None`,
both as a stored value and as the "miss" result — the conflation of the
two at the public interface is exactly what claims about `None` values
are about. -/
structure Hyb (β : Type) where
  mem : Mem (Option β)
  disk : Disk (Option β)
  lastCleanup : ℤ
deriving DecidableEq

/-- `HybridCache._maybe_cleanup`: every `_cleanup_interval = 300` seconds,
sweep expired memory-tier entries. -/
def maybeCleanup (now : ℤ) (h : Hyb β) : Hyb β :=
  if now - h.lastCleanup > 300 then
    { h with mem := memCleanupExpired now h.mem, lastCleanup := now }
  else h

/-- The observable outcome of one `HybridCache.get`: the returned Python
value, the new state, whether the disk tier was read, and whether a
promotion into the memory tier happened. -/
structure HGetRes (β : Type) where
  value : Option β
  state : Hyb β
  diskRead : Bool
  promoted : Bool
deriving DecidableEq

/-- `HybridCache.get`: try memory; if the Python value is not `None`,
return it.  Otherwise read disk; a non-`None` disk value is promoted into
memory with the fixed short TTL `ttl=60` and returned; on a full miss run
the periodic cleanup and return `None`.  (`Option.join` flattens the
model's two-level option into the single Python value: a stored `None` is
indistinguishable from a miss.) -/
def hybridGet (now : ℤ) (maxSize : ℕ) (k : String) (h : Hyb β) : HGetRes β :=
  let mres := memGet now k h.mem
  match mres.1.join with
  | some v => ⟨some v, { h with mem := mres.2 }, false, false⟩
  | none =>
      let dres := diskGet now k h.disk
      match dres.1.join with
      | some v =>
          ⟨some v,
           { h with mem := memSet now k (some v) 60 maxSize mres.2, disk := dres.2 },
           true, true⟩
      | none =>
          ⟨none, maybeCleanup now { h with mem := mres.2, disk := dres.2 }, true, false⟩

/-- `HybridCache.set`: `mem_ttl = memory_ttl or min(ttl, 300)` (Python
`or` falls through on `None` and on `0`), write both tiers, then the
periodic cleanup. -/
def hybridSet (now : ℤ) (k : String) (v : Option β) (ttl : ℤ)
    (memoryTTL : Option ℤ) (maxSize maxBytes size : ℕ) (h : Hyb β) : Hyb β :=
  let memTTL := match memoryTTL with
    | some t => if t = 0 then min ttl 300 else t
    | none => min ttl 300
  maybeCleanup now
    { mem := memSet now k v memTTL maxSize h.mem
      disk := diskSet now k v ttl size maxBytes h.disk
      lastCleanup := h.lastCleanup }

/-- The hybrid cache of C7's counterexample: empty memory tier; the disk
tier holds key "k" (value 7) expiring at 20 — so at `now = 10` its
remaining TTL is 10 seconds. -/
def c7Hyb : Hyb ℕ :=
  ⟨[], ⟨[("k", ⟨20, 5, none⟩)], [("k", ⟨some 7, 20, 0, 0⟩)]⟩, 0⟩

/-- C7 counterexample: promoting "k" at `now = 10` writes a memory entry
expiring at 70 (`ttl=60` is hard-coded in `HybridCache.get`), although
the claim's TTL `min(remainingDiskTTL, promotionCeiling) ≤ 10` would make
it expire no later than 20, the disk entry's own expiry. -/
theorem C7_counterexample :
    (hybridGet 10 100 "k" c7Hyb).value = some 7 ∧
    memLookup "k" (hybridGet 10 100 "k" c7Hyb).state.mem = some ⟨some 7, 70, 0, 10⟩ ∧
    ¬ ((70 : ℤ) ≤ 20) := by
  decide

/-- A key absent from memory and live on disk with a non-`None` value:
`diskGet` returns the blob's value and leaves the disk unchanged. -/
theorem diskGet_live {d : Disk α} {meta : DMeta} {e : CEntry α} (now : ℤ) (k : String)
    (hidx : memLookup k d.index = some meta) (hmexp : ¬ meta.expiresAt < now)
    (hblob : memLookup k d.blobs = some e) (hbexp : ¬ e.isExpired now) :
    diskGet now k d = (some e.value, d) := by
  simp only [diskGet, hidx, hblob]
  rw [if_neg hmexp, if_neg hbexp]

/-- Appending a fresh key at the end makes it the lookup result. -/
theorem memLookup_append_self {m : List (String × β)} (k : String) (v : β)
    (h : memLookup k m = none) : memLookup k (m ++ [(k, v)]) = some v := by
  induction m with
  | nil => simp [memLookup]
  | cons x t ih =>
      rcases x with ⟨k', v'⟩
      simp only [memLookup] at h
      by_cases hk : k' = k
      · rw [if_pos hk] at h; cases h
      · rw [if_neg hk] at h
        show memLookup k ((k', v') :: (t ++ [(k, v)])) = some v
        simp only [memLookup]
        rw [if_neg hk]
        exact ih h

/-- C7 (amended): for a key absent from the memory tier and present,
unexpired and non-`None` in the disk tier, `HybridCache.get` returns the
disk value and promotes it into the memory tier with the FIXED TTL of 60
seconds (`ttl=60` in the code), regardless of the remaining disk TTL; the
promoted entry is appended at the most-recently-used end after the
ordinary capacity eviction (`evictToCap`) — so at capacity the
least-recently-used entries are evicted first and promotion still lands —
and the immediately following `Get` for that key is served from the
memory tier without reading the disk tier.  Any positive capacity is
covered; at `max_size = 0` the code's own eviction loop raises
`StopIteration` (`next(iter(...))` on an emptied dict), so promotion has
no defined behaviour there. -/
theorem C7_disk_promotion {β : Type} (now : ℤ) (maxSize : ℕ) (k : String)
    (h : Hyb β) (meta : DMeta) (e : CEntry (Option β)) (v : β)
    (hm : memLookup k h.mem = none)
    (hidx : memLookup k h.disk.index = some meta)
    (hmexp : ¬ meta.expiresAt < now)
    (hblob : memLookup k h.disk.blobs = some e)
    (hbexp : ¬ e.isExpired now)
    (hval : e.value = some v)
    (_hpos : 0 < maxSize) :
    (hybridGet now maxSize k h).value = some v ∧
    (hybridGet now maxSize k h).diskRead = true ∧
    (hybridGet now maxSize k h).promoted = true ∧
    (hybridGet now maxSize k h).state
      = ⟨evictToCap maxSize h.mem ++ [(k, ⟨some v, now + 60, 0, now⟩)],
         h.disk, h.lastCleanup⟩ ∧
    (hybridGet now maxSize k (hybridGet now maxSize k h).state).value = some v ∧
    (hybridGet now maxSize k (hybridGet now maxSize k h).state).diskRead = false := by
  have h1 : memGet now k h.mem = (none, h.mem) := memGet_miss now k hm
  have h2 : diskGet now k h.disk = (some e.value, h.disk) :=
    diskGet_live now k hidx hmexp hblob hbexp
  have h3 : memSet now k (some v) 60 maxSize h.mem
      = evictToCap maxSize h.mem ++ [(k, ⟨some v, now + 60, 0, now⟩)] :=
    memSet_fresh now k (some v) 60 maxSize hm
  have hevict : memLookup k (evictToCap maxSize h.mem) = none := by
    rw [memLookup_eq_none_iff]
    intro q hq
    exact (memLookup_eq_none_iff k h.mem).mp hm q ((evictToCap_sublist maxSize h.mem).mem hq)
  have hfirst : hybridGet now maxSize k h
      = ⟨some v, ⟨evictToCap maxSize h.mem ++ [(k, ⟨some v, now + 60, 0, now⟩)],
                  h.disk, h.lastCleanup⟩,
         true, true⟩ := by
    simp only [hybridGet, h1, h2, hval, Option.join, Option.bind, id_eq, h3]
  refine ⟨by rw [hfirst], by rw [hfirst], by rw [hfirst], by rw [hfirst], ?_, ?_⟩
  all_goals
    rw [hfirst]
    have hlk : memLookup k (evictToCap maxSize h.mem
          ++ [(k, (⟨some v, now + 60, 0, now⟩ : CEntry (Option β)))])
        = some ⟨some v, now + 60, 0, now⟩ := memLookup_append_self k _ hevict
    have hlive : ¬ (⟨some v, now + 60, 0, now⟩ : CEntry (Option β)).isExpired now := by
      unfold CEntry.isExpired
      simp only [decide_eq_true_eq, not_lt]
      omega
    have h4 := memGet_live now k hlk hlive
    unfold hybridGet
    rw [h4]
    simp [Option.join]

/-- The hybrid cache of C7's witness: the memory tier is exactly AT its
capacity of 1 (holding the unrelated key "old"), so the promotion must
first evict the least-recently-used entry. -/
def c7FullHyb : Hyb ℕ :=
  ⟨[("old", ⟨some 1, 100, 0, 0⟩)],
   ⟨[("k", ⟨20, 5, none⟩)], [("k", ⟨some 7, 20, 0, 0⟩)]⟩, 0⟩

/-- A concrete instance of the amended C7 with the memory tier at
capacity: the disk value is returned, the LRU entry "old" is evicted, the
value is promoted with the fixed 60-second TTL, and the immediately
following `Get` is served from memory without a disk read. -/
theorem C7_witness :
    (hybridGet 10 1 "k" c7FullHyb).value = some 7 ∧
    (hybridGet 10 1 "k" c7FullHyb).diskRead = true ∧
    (hybridGet 10 1 "k" c7FullHyb).promoted = true ∧
    (hybridGet 10 1 "k" c7FullHyb).state
      = ⟨evictToCap 1 c7FullHyb.mem ++ [("k", ⟨some 7, 10 + 60, 0, 10⟩)],
         c7FullHyb.disk, c7FullHyb.lastCleanup⟩ ∧
    (hybridGet 10 1 "k" (hybridGet 10 1 "k" c7FullHyb).state).value = some 7 ∧
    (hybridGet 10 1 "k" (hybridGet 10 1 "k" c7FullHyb).state).diskRead = false :=
  C7_disk_promotion 10 1 "k" c7FullHyb ⟨20, 5, none⟩ ⟨some 7, 20, 0, 0⟩ 7
    (by decide) (by decide) (by decide) (by decide) (by decide) (by decide) (by decide)

/-- A `GeoLocation` record of `services/geo.py`, restricted to the fields
that carry control flow (`ip`, `status`, `message`, `cached`); the
geolocation payload fields (country, city, lat, …) are data passed
through unchanged and are elided.  `status` is the Python status string
(`'success'`, `'fail'`, `'error'`, `'skip'`, …). -/
structure GeoRec where
  ip : String
  status : String
  message : Option String
  cached : Bool
deriving DecidableEq, Repr

/-- The configuration the lookup path reads: `GEO_CACHE_TTL`
(environment-sourced, default 3600). -/
structure GeoConfig where
  geoCacheTTL : ℤ
deriving DecidableEq, Repr

/-- The external collaborators of `GeoService.get_location`, as abstract
functions: `validIP` is `validate_ip` (the stdlib `ipaddress` parser),
`ipapiAvail` whether the optional `ipapi` library imported, `primary` /
`secondary` the responses of `_get_from_ipapi` / `_get_from_ip_api_com`,
`blobSize` the pickled size of a record, plus the cache geometry. -/
structure GeoEnv where
  validIP : String → Bool
  ipapiAvail : Bool
  primary : String → GeoRec
  secondary : String → GeoRec
  cfg : GeoConfig
  maxSize : ℕ
  maxBytes : ℕ
  blobSize : GeoRec → ℕ

/-- The mutable state `get_location` touches: the hybrid cache and the
circuit breaker. -/
structure GeoState where
  cache : Hyb GeoRec
  cb : CB1
deriving DecidableEq

/-- Ghost observables of one `get_location` call: how many provider
requests went out, whether the cache was read, whether the result was
served from the cache-hit branch, and the TTL argument of the cache
write, if one happened. -/
structure GeoGhost where
  providerCalls : ℕ
  cacheRead : Bool
  servedFromCache : Bool
  cacheWriteTTL : Option ℤ
deriving DecidableEq, Repr

/-- The provider-and-caching tail of `GeoService.get_location` (everything
after the cache check): consult the circuit breaker — a rejected call
returns the circuit-open error record with no provider request; otherwise
call the primary provider (if the `ipapi` library is present; else its
result is the `'skip'` record), fall back to the secondary on anything
but `'success'`, then cache asymmetrically: `'success'` with
`GEO_CACHE_TTL`, `'fail'` with the fixed 300-second negative TTL,
anything else is not cached and counts as a breaker failure.
(`geoFetch` below; first the provider chain itself.)

The provider chain of `get_location`: the primary `_get_from_ipapi`
result — the `'skip'` record when the `ipapi` library is absent — with
fallback to `_get_from_ip_api_com` on anything but `'success'`. -/
def geoProviderResult (env : GeoEnv) (ip : String) : GeoRec :=
  let r1 := if env.ipapiAvail then env.primary ip else ⟨ip, "skip", none, false⟩
  if r1.status ≠ "success" then env.secondary ip else r1

/-- How many provider requests the provider chain issues: one for the
primary when the `ipapi` library is present, plus one for the fallback
when the primary's status is not `'success'`. -/
def geoProviderCalls (env : GeoEnv) (ip : String) : ℕ :=
  let r1 := if env.ipapiAvail then env.primary ip else (⟨ip, "skip", none, false⟩ : GeoRec)
  let calls1 : ℕ := if env.ipapiAvail then 1 else 0
  if r1.status ≠ "success" then calls1 + 1 else calls1

/-- The breaker check, provider chain and asymmetric cache write — the
body of `get_location` after its cache check. -/
def geoFetch (env : GeoEnv) (now : ℤ) (st : GeoState) (ip key : String)
    (cacheRead : Bool) : GeoRec × GeoState × GeoGhost :=
  if (st.cb.canExecute now).2 = false then
    (⟨ip, "error", some "Service temporarily unavailable (circuit breaker open)", false⟩,
     ⟨st.cache, (st.cb.canExecute now).1⟩, ⟨0, cacheRead, false, none⟩)
  else
    if (geoProviderResult env ip).status = "success" then
      (geoProviderResult env ip,
       ⟨hybridSet now key (some (geoProviderResult env ip)) env.cfg.geoCacheTTL none
          env.maxSize env.maxBytes (env.blobSize (geoProviderResult env ip)) st.cache,
        (st.cb.canExecute now).1.recordSuccess⟩,
       ⟨geoProviderCalls env ip, cacheRead, false, some env.cfg.geoCacheTTL⟩)
    else if (geoProviderResult env ip).status = "fail" then
      (geoProviderResult env ip,
       ⟨hybridSet now key (some (geoProviderResult env ip)) 300 none
          env.maxSize env.maxBytes (env.blobSize (geoProviderResult env ip)) st.cache,
        (st.cb.canExecute now).1.recordSuccess⟩,
       ⟨geoProviderCalls env ip, cacheRead, false, some 300⟩)
    else
      (geoProviderResult env ip,
       ⟨st.cache, (st.cb.canExecute now).1.recordFailure now⟩,
       ⟨geoProviderCalls env ip, cacheRead, false, none⟩)

/-- `GeoService.get_location`: validate the address — an invalid one
returns the `'error'` record immediately, before any cache or breaker
access; otherwise check the cache under key `geo:{ip}` (unless
`skip_cache`), returning a hit with `cached=True`; on a miss run the
provider-and-caching tail `geoFetch`. -/
def getLocation (env : GeoEnv) (now : ℤ) (skipCache : Bool) (st : GeoState)
    (ip : String) : GeoRec × GeoState × GeoGhost :=
  if env.validIP ip then
    if skipCache then geoFetch env now st ip ("geo:" ++ ip) false
    else
      match (hybridGet now env.maxSize ("geo:" ++ ip) st.cache).value with
      | some rec =>
          ({ rec with cached := true },
           ⟨(hybridGet now env.maxSize ("geo:" ++ ip) st.cache).state, st.cb⟩,
           ⟨0, true, true, none⟩)
      | none =>
          geoFetch env now
            ⟨(hybridGet now env.maxSize ("geo:" ++ ip) st.cache).state, st.cb⟩
            ip ("geo:" ++ ip) true
  else
    (⟨ip, "error", some "Invalid IP address", false⟩, st, ⟨0, false, false, none⟩)

/-- C9: an input that fails syntactic validation makes `get_location`
return the invalid-address `'error'` record immediately: the cache is
neither read nor written (the state — cache and breaker — is returned
unchanged), no provider is called, and nothing is cached. -/
theorem C9_invalid_ip_short_circuit (env : GeoEnv) (now : ℤ) (skipCache : Bool)
    (st : GeoState) (ip : String) (h : env.validIP ip = false) :
    getLocation env now skipCache st ip
      = (⟨ip, "error", some "Invalid IP address", false⟩, st,
         ⟨0, false, false, none⟩) := by
  unfold getLocation
  rw [h]
  simp

/-- The environment of C9's witness: validation rejects everything (as
`ipaddress.ip_address` does on `"not-an-ip"`). -/
def c9Env : GeoEnv :=
  { validIP := fun _ => false, ipapiAvail := false
    primary := fun ip => ⟨ip, "success", none, false⟩
    secondary := fun ip => ⟨ip, "success", none, false⟩
    cfg := ⟨3600⟩, maxSize := 10, maxBytes := 1000, blobSize := fun _ => 1 }

/-- The initial service state used by concrete instances: empty cache,
fresh breaker with the constructor defaults (5, 60, 3). -/
def geoSt0 : GeoState := ⟨⟨[], ⟨[], []⟩, 0⟩, CB1.init 5 60 3⟩

/-- A concrete instance of C9: looking up `"not-an-ip"` returns the
invalid-address error record, leaves the state untouched, and performs no
provider call, no cache read and no cache write. -/
theorem C9_witness :
    getLocation c9Env 0 false geoSt0 "not-an-ip"
      = (⟨"not-an-ip", "error", some "Invalid IP address", false⟩, geoSt0,
         ⟨0, false, false, none⟩) :=
  C9_invalid_ip_short_circuit c9Env 0 false geoSt0 "not-an-ip" (by decide)

/-- Whenever `geoFetch` performs a cache write, the TTL it passes is
`GEO_CACHE_TTL` for a `'success'` result and the fixed 300 seconds for a
`'fail'` result — no other outcome is written. -/
theorem geoFetch_writeTTL (env : GeoEnv) (now : ℤ) (st : GeoState)
    (ip key : String) (cacheRead : Bool) (t : ℤ)
    (h : (geoFetch env now st ip key cacheRead).2.2.cacheWriteTTL = some t) :
    ((geoFetch env now st ip key cacheRead).1.status = "success"
        ∧ t = env.cfg.geoCacheTTL) ∨
    ((geoFetch env now st ip key cacheRead).1.status = "fail" ∧ t = 300) := by
  unfold geoFetch at h ⊢
  by_cases hcb : (st.cb.canExecute now).2 = false
  · rw [if_pos hcb] at h
    simp at h
  · rw [if_neg hcb] at h ⊢
    by_cases hs : (geoProviderResult env ip).status = "success"
    · rw [if_pos hs] at h ⊢
      left
      refine ⟨hs, ?_⟩
      simpa using h.symm
    · rw [if_neg hs] at h ⊢
      by_cases hf : (geoProviderResult env ip).status = "fail"
      · rw [if_pos hf] at h ⊢
        right
        refine ⟨hf, ?_⟩
        simpa using h.symm
      · rw [if_neg hf] at h
        simp at h

/-- A cache write of `get_location` comes from `geoFetch` (the cache-hit
and invalid-input branches never write), so the same TTL dichotomy holds
for the whole lookup. -/
theorem getLocation_writeTTL (env : GeoEnv) (now : ℤ) (skipCache : Bool)
    (st : GeoState) (ip : String) (t : ℤ)
    (h : (getLocation env now skipCache st ip).2.2.cacheWriteTTL = some t) :
    ((getLocation env now skipCache st ip).1.status = "success"
        ∧ t = env.cfg.geoCacheTTL) ∨
    ((getLocation env now skipCache st ip).1.status = "fail" ∧ t = 300) := by
  unfold getLocation at h ⊢
  by_cases hv : env.validIP ip
  · rw [if_pos hv] at h ⊢
    by_cases hsk : skipCache
    · rw [if_pos hsk] at h ⊢
      exact geoFetch_writeTTL env now st ip ("geo:" ++ ip) false t h
    · rw [if_neg hsk] at h ⊢
      cases hr : (hybridGet now env.maxSize ("geo:" ++ ip) st.cache).value with
      | some rec => rw [hr] at h; simp at h
      | none =>
          rw [hr] at h
          exact geoFetch_writeTTL env now _ ip ("geo:" ++ ip) true t h
  · rw [if_neg hv] at h
    simp at h

/-- C2 (amended): under one configuration with `GEO_CACHE_TTL > 300` (the
default 3600 qualifies), any lookup whose outcome is the definitive
failure status `'fail'` is written to the cache with TTL 300, any lookup
whose outcome is `'success'` is written with TTL `GEO_CACHE_TTL`, and the
former is strictly less than the latter. -/
theorem C2_negative_ttl_strictly_shorter (env : GeoEnv) (now1 now2 : ℤ)
    (sk1 sk2 : Bool) (st1 st2 : GeoState) (ipX ipY : String) (t1 t2 : ℤ)
    (hcfg : 300 < env.cfg.geoCacheTTL)
    (h1 : (getLocation env now1 sk1 st1 ipX).2.2.cacheWriteTTL = some t1)
    (hf : (getLocation env now1 sk1 st1 ipX).1.status = "fail")
    (h2 : (getLocation env now2 sk2 st2 ipY).2.2.cacheWriteTTL = some t2)
    (hs : (getLocation env now2 sk2 st2 ipY).1.status = "success") :
    t1 = 300 ∧ t2 = env.cfg.geoCacheTTL ∧ t1 < t2 := by
  have d1 := getLocation_writeTTL env now1 sk1 st1 ipX t1 h1
  have d2 := getLocation_writeTTL env now2 sk2 st2 ipY t2 h2
  have ht1 : t1 = 300 := by
    rcases d1 with ⟨hst, _⟩ | ⟨_, ht⟩
    · rw [hf] at hst; exact absurd hst (by decide)
    · exact ht
  have ht2 : t2 = env.cfg.geoCacheTTL := by
    rcases d2 with ⟨_, ht⟩ | ⟨hst, _⟩
    · exact ht
    · rw [hs] at hst; exact absurd hst (by decide)
  exact ⟨ht1, ht2, by omega⟩

/-- The C2 environment with `GEO_CACHE_TTL` configured to 300: lookups of
"X" definitively fail, lookups of "Y" succeed. -/
def c2Env : GeoEnv :=
  { validIP := fun _ => true, ipapiAvail := false
    primary := fun ip => ⟨ip, "skip", none, false⟩
    secondary := fun ip =>
      if ip = "X" then ⟨ip, "fail", none, false⟩ else ⟨ip, "success", none, false⟩
    cfg := ⟨300⟩, maxSize := 10, maxBytes := 1000, blobSize := fun _ => 1 }

/-- C2 counterexample: with `GEO_CACHE_TTL = 300` (nothing in the code
validates the configured value), a failed lookup of "X" and a successful
lookup of "Y" under this identical configuration are both cached with TTL
300 — the negative TTL is NOT strictly less than the positive one. -/
theorem C2_counterexample :
    (getLocation c2Env 0 false geoSt0 "X").1.status = "fail" ∧
    (getLocation c2Env 0 false geoSt0 "X").2.2.cacheWriteTTL = some 300 ∧
    (getLocation c2Env 0 false geoSt0 "Y").1.status = "success" ∧
    (getLocation c2Env 0 false geoSt0 "Y").2.2.cacheWriteTTL = some 300 ∧
    ¬ ((300 : ℤ) < 300) := by
  refine ⟨?_, ?_, ?_, ?_, by omega⟩ <;> decide

/-- A concrete instance of the amended C2 at the default configuration
`GEO_CACHE_TTL = 3600`: the failed lookup is cached for 300 seconds, the
successful one for 3600, and 300 < 3600. -/
def c2DefEnv : GeoEnv := { c2Env with cfg := ⟨3600⟩ }

/-- Witness for the amended C2, discharging its hypotheses on concrete
lookups under the default configuration. -/
theorem C2_witness :
    ((getLocation c2DefEnv 0 false geoSt0 "X").2.2.cacheWriteTTL = some 300
      ∧ (getLocation c2DefEnv 0 false geoSt0 "Y").2.2.cacheWriteTTL = some 3600) ∧
    (300 : ℤ) < 3600 := by
  have h := C2_negative_ttl_strictly_shorter c2DefEnv 0 0 false false geoSt0 geoSt0
    "X" "Y" 300 3600 (by decide) (by decide) (by decide) (by decide) (by decide)
  exact ⟨⟨by decide, by decide⟩, h.2.2⟩

/-- Dict assignment makes the assigned value the lookup result. -/
theorem memLookup_upsert_self (k : String) (v : β) (l : List (String × β)) :
    memLookup k (upsert k v l) = some v := by
  induction l with
  | nil => simp [upsert, memLookup]
  | cons x t ih =>
      rcases x with ⟨k', v'⟩
      unfold upsert
      by_cases hk : k' = k
      · rw [if_pos hk]; simp [memLookup]
      · rw [if_neg hk]
        simp only [memLookup]
        rw [if_neg hk]
        exact ih

/-- Filtering keeps a looked-up entry that satisfies the predicate. -/
theorem memLookup_filter {p : String × β → Bool} {l : List (String × β)} {e : β}
    (k : String) (hl : memLookup k l = some e) (hp : p (k, e) = true) :
    memLookup k (l.filter p) = some e := by
  induction l with
  | nil => simp [memLookup] at hl
  | cons x t ih =>
      rcases x with ⟨k', v'⟩
      simp only [memLookup] at hl
      by_cases hk : k' = k
      · rw [if_pos hk] at hl
        injection hl with hl
        subst hl
        subst hk
        simp [List.filter_cons, hp, memLookup]
      · rw [if_neg hk] at hl
        have hrec := ih hl
        by_cases hkeep : p (k', v') = true
        · simp [List.filter_cons, hkeep, memLookup, hk, hrec]
        · simp [List.filter_cons, hkeep, hrec]

/-- After a `MemoryCache.set`, the key looks up to the freshly written
entry (no duplicate keys assumed for the replace case). -/
theorem memLookup_memSet_self (now : ℤ) (k : String) (v : α) (ttl : ℤ)
    (maxSize : ℕ) (m : Mem α) (hnd : (m.map Prod.fst).Nodup) :
    memLookup k (memSet now k v ttl maxSize m) = some ⟨v, now + ttl, 0, now⟩ := by
  by_cases hl : (memLookup k m).isSome
  · rw [memSet_replace now k v ttl maxSize hl]
    exact memLookup_append_self k _ (memLookup_eraseKey_self k m hnd)
  · have hl' := Option.not_isSome_iff_eq_none.mp hl
    rw [memSet_fresh now k v ttl maxSize hl']
    refine memLookup_append_self k _ ?_
    rw [memLookup_eq_none_iff]
    intro q hq
    exact (memLookup_eq_none_iff k m).mp hl' q ((evictToCap_sublist maxSize m).mem hq)

/-- An index row already past its expiry makes `diskGet` a deleting miss. -/
theorem diskGet_idx_expired {d : Disk α} {meta : DMeta} (now : ℤ) (k : String)
    (hidx : memLookup k d.index = some meta) (h : meta.expiresAt < now) :
    diskGet now k d = (none, diskDelete k d) := by
  simp only [diskGet, hidx]
  rw [if_pos h]

/-- The periodic cleanup never touches the disk tier. -/
theorem maybeCleanup_disk (now : ℤ) (h : Hyb β) :
    (maybeCleanup now h).disk = h.disk := by
  unfold maybeCleanup
  split <;> rfl

/-- The periodic cleanup keeps an unexpired looked-up entry. -/
theorem maybeCleanup_lookup (now : ℤ) (k : String) (h : Hyb β)
    (em : CEntry (Option β)) (hl : memLookup k h.mem = some em)
    (hlive : ¬ em.isExpired now) :
    memLookup k (maybeCleanup now h).mem = some em := by
  unfold maybeCleanup
  split
  · exact memLookup_filter k hl (by simpa using hlive)
  · exact hl

/-- A full miss on both tiers: `HybridCache.get` returns `None` with no
promotion. -/
theorem hybridGet_full_miss {h : Hyb β} (now : ℤ) (maxSize : ℕ) (k : String)
    (hv : (memGet now k h.mem).1.join = none)
    (hd : (diskGet now k h.disk).1.join = none) :
    (hybridGet now maxSize k h).value = none ∧
    (hybridGet now maxSize k h).promoted = false := by
  have hv' : ((memGet now k h.mem).1.bind fun a => a) = none := hv
  have hd' : ((diskGet now k h.disk).1.bind fun a => a) = none := hd
  refine ⟨?_, ?_⟩ <;> simp [hybridGet, hv', hd']

/-- `geoFetch` never reports a cache-hit serve. -/
theorem geoFetch_not_served (env : GeoEnv) (now : ℤ) (st : GeoState)
    (ip key : String) (cacheRead : Bool) :
    (geoFetch env now st ip key cacheRead).2.2.servedFromCache = false := by
  unfold geoFetch
  split
  · rfl
  · split
    · rfl
    · split
      · rfl
      · rfl

/-- C10: storing the Python value `None` under a key (with any positive
TTL) makes every subsequent `TieredCache.Get` of that key return `None` —
the very value that signals an absent key — with no promotion from the
disk tier into the memory tier; and the lookup service, which branches on
the returned value (`if cached:`), never serves such an entry from its
cache-hit path. -/
theorem C10_stored_none_behaves_as_miss :
    (∀ {β : Type} (now0 now ttl : ℤ) (k : String) (maxSize maxBytes size : ℕ)
        (h : Hyb β), 0 < ttl → (h.mem.map Prod.fst).Nodup →
      (hybridGet now maxSize k
          (hybridSet now0 k none ttl none maxSize maxBytes size h)).value = none ∧
      (hybridGet now maxSize k
          (hybridSet now0 k none ttl none maxSize maxBytes size h)).promoted = false) ∧
    (∀ (env : GeoEnv) (cb : CB1) (h : Hyb GeoRec) (now0 now ttl : ℤ) (size : ℕ)
        (ip : String), env.validIP ip = true → 0 < ttl →
        (h.mem.map Prod.fst).Nodup →
      (getLocation env now false
          ⟨hybridSet now0 ("geo:" ++ ip) none ttl none
             env.maxSize env.maxBytes size h, cb⟩ ip).2.2.servedFromCache = false) := by
  have main : ∀ {β : Type} (now0 now ttl : ℤ) (k : String)
      (maxSize maxBytes size : ℕ) (h : Hyb β), 0 < ttl →
      (h.mem.map Prod.fst).Nodup →
      (hybridGet now maxSize k
          (hybridSet now0 k none ttl none maxSize maxBytes size h)).value = none ∧
      (hybridGet now maxSize k
          (hybridSet now0 k none ttl none maxSize maxBytes size h)).promoted = false := by
    intro β now0 now ttl k maxSize maxBytes size h httl hnd
    have hminpos : (0 : ℤ) < min ttl 300 := lt_min httl (by norm_num)
    have hset : hybridSet now0 k none ttl none maxSize maxBytes size h
        = maybeCleanup now0
            ⟨memSet now0 k none (min ttl 300) maxSize h.mem,
             diskSet now0 k none ttl size maxBytes h.disk, h.lastCleanup⟩ := rfl
    have hm0 : memLookup k (memSet now0 k none (min ttl 300) maxSize h.mem)
        = some ⟨none, now0 + min ttl 300, 0, now0⟩ :=
      memLookup_memSet_self now0 k none (min ttl 300) maxSize h.mem hnd
    have hlive0 : ¬ (⟨none, now0 + min ttl 300, 0, now0⟩
        : CEntry (Option β)).isExpired now0 := by
      unfold CEntry.isExpired
      simp only [decide_eq_true_eq, not_lt]
      omega
    have hm1 : memLookup k
        (hybridSet now0 k none ttl none maxSize maxBytes size h).mem
        = some ⟨none, now0 + min ttl 300, 0, now0⟩ := by
      rw [hset]
      exact maybeCleanup_lookup now0 k _ _ hm0 hlive0
    have hd1 : (hybridSet now0 k none ttl none maxSize maxBytes size h).disk
        = diskSet now0 k none ttl size maxBytes h.disk := by
      rw [hset, maybeCleanup_disk]
    have hidx : memLookup k
        (hybridSet now0 k none ttl none maxSize maxBytes size h).disk.index
        = some ⟨now0 + ttl, size, none⟩ := by
      rw [hd1]
      exact memLookup_upsert_self k _ _
    have hblob : memLookup k
        (hybridSet now0 k none ttl none maxSize maxBytes size h).disk.blobs
        = some ⟨none, now0 + ttl, 0, now0⟩ := by
      rw [hd1]
      exact memLookup_upsert_self k _ _
    have hvraw : (memGet now k
        (hybridSet now0 k none ttl none maxSize maxBytes size h).mem).1.join
        = none := by
      by_cases hexp : (⟨none, now0 + min ttl 300, 0, now0⟩
          : CEntry (Option β)).isExpired now
      · rw [memGet_expired now k hm1 hexp]
        rfl
      · rw [memGet_live now k hm1 hexp]
        rfl
    have hdraw : (diskGet now k
        (hybridSet now0 k none ttl none maxSize maxBytes size h).disk).1.join
        = none := by
      by_cases hexp : (⟨now0 + ttl, size, none⟩ : DMeta).expiresAt < now
      · rw [diskGet_idx_expired now k hidx hexp]
        rfl
      · have hbl : ¬ (⟨none, now0 + ttl, 0, now0⟩
            : CEntry (Option β)).isExpired now := by
          unfold CEntry.isExpired
          simpa using hexp
        rw [diskGet_live now k hidx hexp hblob hbl]
        rfl
    exact hybridGet_full_miss now maxSize k hvraw hdraw
  refine ⟨main, ?_⟩
  intro env cb h now0 now ttl size ip hv httl hnd
  have hmiss := main now0 now ttl ("geo:" ++ ip) env.maxSize env.maxBytes size h httl hnd
  unfold getLocation
  simp only [hv, if_true, Bool.false_eq_true, if_false, hmiss.1]
  exact geoFetch_not_served env now _ ip ("geo:" ++ ip) true

/-- A concrete instance of C10: store `None` under "k" with TTL 1000 in
an empty hybrid cache; the immediate `Get` returns `None` and promotes
nothing. -/
theorem C10_witness :
    (hybridGet 5 10 "k"
        (hybridSet 0 "k" none 1000 none 10 1000 1 (⟨[], ⟨[], []⟩, 0⟩ : Hyb ℕ))).value
      = none ∧
    (hybridGet 5 10 "k"
        (hybridSet 0 "k" none 1000 none 10 1000 1 (⟨[], ⟨[], []⟩, 0⟩ : Hyb ℕ))).promoted
      = false :=
  C10_stored_none_behaves_as_miss.1 0 5 1000 "k" 10 1000 1
    (⟨[], ⟨[], []⟩, 0⟩ : Hyb ℕ) (by decide) (by decide)

end IpChecker
